import Mathlib

/-
Verification of the snapshot backup/restore core in
src/monitor_bot/backup_restore.py.

The Python module is shallowly embedded below.  Filesystem state is a pure
value: a directory tree per root path plus oracles for the per-file syscalls
the code performs (os.lstat, reading file contents for SHA-256, reading the
CA index and serial files).  Side-effecting phases of apply_restore are
modelled as an explicit event trace.  All definitions are computable so the
theorems can be exercised on concrete inputs.
-/

deriving instance DecidableEq for Except

namespace BackupRestore

/-! ## Character-list string utilities

Lean core string comparisons are iterator-based and do not reduce in the
kernel, so the handful of string operations the Python code relies on are
re-implemented structurally over `String.data`. -/

/-- Split a character list at every occurrence of `sep`, like Python
`str.split(sep)`: `"".split` gives `[""]`, separators at the ends give empty
segments. -/
def chSplit (sep : Char) : List Char → List (List Char)
  | [] => [[]]
  | c :: rest =>
      let r := chSplit sep rest
      if c = sep then [] :: r
      else
        match r with
        | [] => [[c]]
        | h :: t => (c :: h) :: t

/-- Lexicographic comparison of character lists by code point, the order
Python `sorted` uses on `str`. -/
def chLe : List Char → List Char → Bool
  | [], _ => true
  | _ :: _, [] => false
  | a :: as, b :: bs => if a = b then chLe as bs else decide (a < b)

/-- Python `str.strip()` restricted to ASCII whitespace. -/
def pyTrim (s : String) : String :=
  String.mk (((s.data.dropWhile Char.isWhitespace).reverse.dropWhile Char.isWhitespace).reverse)

/-- Helper for `pyWsSplit`: accumulate the current field (reversed). -/
def wsSplitAux : List Char → List Char → List (List Char)
  | [], acc => if acc = [] then [] else [acc.reverse]
  | c :: rest, acc =>
      if c.isWhitespace then
        if acc = [] then wsSplitAux rest []
        else acc.reverse :: wsSplitAux rest []
      else wsSplitAux rest (c :: acc)

/-- Python `str.split()` with no argument: split on runs of whitespace,
dropping empty fields. -/
def pyWsSplit (s : String) : List String :=
  (wsSplitAux s.data []).map String.mk

/-- Lexicographic order on strings used to model Python `sorted` on paths. -/
def strLeP (a b : String) : Prop := chLe a.data b.data = true

instance : DecidableRel strLeP :=
  fun a b => inferInstanceAs (Decidable (chLe a.data b.data = true))

/-- Length-descending order on strings: the key order of
`sorted(extra_list, key=lambda p: len(p), reverse=True)` in `purge_extras`. -/
def lenGeP (a b : String) : Prop := b.length ≤ a.length

instance : DecidableRel lenGeP :=
  fun a b => inferInstanceAs (Decidable (b.length ≤ a.length))

/-- Python `sorted` on a list of path strings (stable, lexicographic). -/
def sortStr (l : List String) : List String := List.insertionSort strLeP l

/-! ## posixpath primitives used by the code -/

/-- `os.path.normpath` for POSIX paths: collapse `//`, drop `.` segments,
resolve `..` segments purely lexically, preserving one or two leading
slashes. Mirrors the CPython `posixpath.normpath` algorithm. -/
def normpath (path : String) : String :=
  let cs := path.data
  if cs = [] then "."
  else
    let slashes : Nat :=
      if ['/', '/'].isPrefixOf cs ∧ ¬ ['/', '/', '/'].isPrefixOf cs then 2
      else if ['/'].isPrefixOf cs then 1 else 0
    let comps := chSplit '/' cs
    let newComps : List (List Char) := comps.foldl (fun acc comp =>
      if comp = [] ∨ comp = ['.'] then acc
      else if comp ≠ ['.', '.'] ∨ (slashes = 0 ∧ acc = []) ∨ acc.getLast? = some ['.', '.'] then
        acc ++ [comp]
      else acc.dropLast) []
    let joined := (newComps.intersperse ['/']).flatten
    let result := List.replicate slashes '/' ++ joined
    if result = [] then "." else String.mk result

/-- `os.path.join(a, b)` for the cases arising in `os.walk`: `b` is a plain
entry name, but the general behaviour (absolute `b` wins, no doubled
separator after a trailing slash) is kept. -/
def pyJoin (a b : String) : String :=
  if ['/'].isPrefixOf b.data then b
  else if a = "" ∨ a.data.getLast? = some '/' then a ++ b
  else a ++ "/" ++ b

/-! ## Exclusion filter (module-level configuration) -/

/-- `EXCLUDE_PATHS` from backup_restore.py. -/
def EXCLUDE_PATHS : List String :=
  ["/root/.bash_history", "/root/.cache", "/root/backups/.tmp"]

/-- `EXCLUDE_SUFFIXES` from backup_restore.py. -/
def EXCLUDE_SUFFIXES : List String := [".pyc", ".log", ".swp"]

/-- `STRICT_PURGE` flag from backup_restore.py. -/
def STRICT_PURGE : Bool := true

/-- `EASYRSA_DIR` from backup_restore.py. -/
def EASYRSA_DIR : String := "/etc/openvpn/easy-rsa"

/-- `is_excluded(path)`: normalize, then exact match against
`EXCLUDE_PATHS` or suffix match against `EXCLUDE_SUFFIXES`. -/
def is_excluded (path : String) : Bool :=
  let norm := normpath path
  EXCLUDE_PATHS.contains norm ||
    EXCLUDE_SUFFIXES.any (fun suf => suf.data.isSuffixOf norm.data)

/-! ## Directory trees and `iter_files`

`os.walk(root, followlinks=False)` over regular files and directories is
modelled by a finite tree.  The mutual inductive keeps all recursion
structural so every traversal reduces in the kernel. -/

mutual
/-- One directory entry: a regular file or a subdirectory. -/
inductive FSNode where
  | file (name : String)
  | dir (name : String) (children : FSList)

/-- A directory listing, in `os.listdir` order. -/
inductive FSList where
  | nil
  | cons (head : FSNode) (tail : FSList)
end

/-- Build an `FSList` from an ordinary list of nodes. -/
def FSList.ofList : List FSNode → FSList
  | [] => FSList.nil
  | n :: rest => FSList.cons n (FSList.ofList rest)

mutual
/-- The file paths `os.walk` yields at one directory level: regular files,
in listing order, minus those rejected by `is_excluded` (the
`if is_excluded(p): continue` branch of `iter_files`). -/
def filesAt (base : String) : FSList → List String
  | FSList.nil => []
  | FSList.cons (FSNode.file n) rest =>
      let p := pyJoin base n
      if is_excluded p then filesAt base rest else p :: filesAt base rest
  | FSList.cons (FSNode.dir _ _) rest => filesAt base rest

/-- Recursion of `os.walk` into subdirectories, in listing order; excluded
directories are pruned (the `dirs.remove(d)` branch of `iter_files`), so
their subtrees are never visited. -/
def walkSub (base : String) : FSList → List String
  | FSList.nil => []
  | FSList.cons (FSNode.file _) rest => walkSub base rest
  | FSList.cons (FSNode.dir n cs) rest =>
      let p := pyJoin base n
      (if is_excluded p then [] else filesAt p cs ++ walkSub p cs) ++ walkSub base rest
end

/-- Full walk from a directory: files of each directory first, then each
kept subdirectory in order, matching the top-down yield order of `os.walk`
as consumed by `iter_files`. -/
def walkDir (base : String) (entries : FSList) : List String :=
  filesAt base entries ++ walkSub base entries

/-- Metadata returned by `os.lstat` as used by `build_manifest`. -/
structure StatInfo where
  size : Nat
  mode : Nat
  uid : Nat
  gid : Nat
deriving DecidableEq

/-- A pure filesystem valuation: the directory tree reachable from each root
string, plus oracles for the per-file syscalls.  `lookup r = none` models
`os.path.exists(r)` false (or `r` not being a directory, in which case
`os.walk` yields nothing).  `lstat p = none` models `os.lstat` raising
`FileNotFoundError`.  `hash p = .error ()` models `sha256_file` raising
(file vanished, permission denied, ...). -/
structure FS where
  lookup : String → Option FSList
  lstat : String → Option StatInfo
  hash : String → Except Unit String
  pkiRootExists : Bool
  indexLines : Option (List String)
  serialFile : Option String
  created_at : String

/-- `iter_files(root)`: empty when the root does not exist, otherwise the
pruned, exclusion-filtered `os.walk` traversal. -/
def iter_files (fs : FS) (root : String) : List String :=
  match fs.lookup root with
  | none => []
  | some entries => walkDir root entries

/-! ## Manifest data model -/

/-- One entry of the `files` list of a manifest.  `mode` keeps the numeric
`stat.S_IMODE` value that the Python code renders with `oct`. -/
structure FileRecord where
  path : String
  sha256 : String
  size : Nat
  mode : Nat
  uid : Nat
  gid : Nat
deriving DecidableEq

/-- One entry of `openvpn_pki.clients`, parsed from a CA index line. -/
structure ClientRec where
  cn : String
  status : String
  serial : String
  expiry_raw : String
deriving DecidableEq

/-- The `openvpn_pki` section of a manifest. -/
structure PkiInfo where
  pki_root : Option String
  index_sha256 : Option String
  serial : Option String
  clients : List ClientRec
deriving DecidableEq

/-- A manifest as built by `build_manifest`. -/
structure Manifest where
  version : Nat
  created_at : String
  roots : List String
  files : List FileRecord
  openvpn_pki : PkiInfo
deriving DecidableEq

/-- A diff report as returned by `compute_diff`. -/
structure DiffReport where
  extra : List String
  missing : List String
  changed : List String
deriving DecidableEq

/-! ## CA index parsing (inline loop of `build_manifest`, lines 127-150) -/

/-- Extraction of the Common Name from the subject field: split on `/` and
take the suffix of the first segment starting with `CN=`. -/
def extractCN (subject : String) : Option String :=
  if ['/'].isPrefixOf subject.data then
    ((chSplit '/' subject.data).find? (fun part => ['C', 'N', '='].isPrefixOf part)).map
      (fun part => String.mk (part.drop 3))
  else none

/-- Parse one line of the CA index file exactly as the loop body in
`build_manifest` does: strip, skip blank lines and lines with fewer than 5
whitespace-separated fields; record `parts[0]` as status, `parts[1]` as
expiry, `parts[3]` as serial, and extract `CN=` from the last field,
substituting `"?"` when the CN is absent or empty (Python `cn or "?"`). -/
def parse_index_line (line : String) : Option ClientRec :=
  let l := pyTrim line
  if l = "" then none
  else
    let parts := pyWsSplit l
    if parts.length < 5 then none
    else
      let status := parts.getD 0 ""
      let expiry_raw := parts.getD 1 ""
      let serial := parts.getD 3 ""
      let subject := parts.getLastD ""
      let cnVal :=
        match extractCN subject with
        | some c => if c = "" then "?" else c
        | none => "?"
      some { cn := cnVal, status := status, serial := serial, expiry_raw := expiry_raw }

/-! ## `build_manifest` -/

/-- The inner file-metadata loop of `build_manifest` (lines 102-115) over an
already-computed traversal list.  `os.lstat` raising `FileNotFoundError` is
the `none` case of `fs.lstat` and skips the file; `sha256_file` raising is
the `.error` case of `fs.hash` and, being outside any `try`, aborts the
whole build. -/
def buildFilesMeta (fs : FS) : List String → Except Unit (List FileRecord)
  | [] => Except.ok []
  | fp :: rest =>
      match fs.lstat fp with
      | none => buildFilesMeta fs rest
      | some st =>
          match fs.hash fp with
          | Except.error e => Except.error e
          | Except.ok h =>
              (buildFilesMeta fs rest).map
                (fun l => { path := fp, sha256 := h, size := st.size, mode := st.mode,
                            uid := st.uid, gid := st.gid } :: l)

/-- The traversal `build_manifest` performs: each root is normalized first
(`r = os.path.normpath(r)`), then walked. -/
def buildWalk (fs : FS) (roots : List String) : List String :=
  (roots.map (fun r => iter_files fs (normpath r))).flatten

/-- `build_manifest(roots)`.  The PKI section is best-effort: a missing
index file yields no digest and no clients; a failing digest of the index
file is swallowed by the surrounding `try` before any line is parsed.  Note
the manifest stores the roots as given, not their normalized forms. -/
def build_manifest (fs : FS) (roots : List String) : Except Unit Manifest :=
  match buildFilesMeta fs (buildWalk fs roots) with
  | Except.error e => Except.error e
  | Except.ok files_meta =>
      let pki_root := pyJoin EASYRSA_DIR "pki"
      let index_path := pyJoin pki_root "index.txt"
      let (index_sha, clients) :=
        match fs.indexLines with
        | none => (none, [])
        | some lines =>
            match fs.hash index_path with
            | Except.error _ => (none, [])
            | Except.ok sha => (some sha, lines.filterMap parse_index_line)
      Except.ok
        { version := 1
          created_at := fs.created_at
          roots := roots
          files := files_meta
          openvpn_pki :=
            { pki_root := if fs.pkiRootExists then some pki_root else none
              index_sha256 := index_sha
              serial := fs.serialFile.map pyTrim
              clients := clients } }

/-! ## `compute_diff` -/

/-- The digest the manifest records for a path, through the dict
`{f["path"]: f for f in manifest["files"]}`: when several records share a
path the last one wins. -/
def recordedSha (files : List FileRecord) (p : String) : Option String :=
  (files.reverse.find? (fun f => f.path == p)).map (fun f => f.sha256)

/-- The current traversal `compute_diff` performs: `iter_files` over the
roots recorded in the manifest, as given (no normalization). -/
def currentPaths (fs : FS) (m : Manifest) : List String :=
  (m.roots.map (fun r => iter_files fs r)).flatten

/-- The local `recorded_set` of `compute_diff`: the recorded paths as a
set.  Python sets are modelled by `List.dedup`; membership is all that
matters, since every output list is sorted before being returned. -/
def recordedSet (m : Manifest) : List String :=
  (m.files.map (fun f => f.path)).dedup

/-- The local `current_set` of `compute_diff`. -/
def currentSet (fs : FS) (m : Manifest) : List String :=
  (currentPaths fs m).dedup

/-- `compute_diff(manifest)`: set difference both ways, then digest
comparison over the intersection, a digest-computation failure counting as
changed; all three lists sorted. -/
def compute_diff (fs : FS) (m : Manifest) : DiffReport :=
  { extra := sortStr ((currentSet fs m).filter (fun p => decide (p ∉ recordedSet m)))
    missing := sortStr ((recordedSet m).filter (fun p => decide (p ∉ currentSet fs m)))
    changed := sortStr
      (((recordedSet m).filter (fun p => decide (p ∈ currentSet fs m))).filter
        (fun p =>
          match fs.hash p with
          | Except.error _ => true
          | Except.ok h => decide (recordedSha m.files p ≠ some h))) }

/-! ## `purge_extras` -/

/-- The iteration order of `purge_extras`:
`sorted(extra_list, key=lambda p: len(p), reverse=True)` — longest path
first, ties keeping list order (Python sort is stable). -/
def purge_order (extra_list : List String) : List String :=
  List.insertionSort lenGeP extra_list

/-! ## `apply_restore` as an event trace -/

/-- Observable filesystem side effects of one `apply_restore` call, in
order.  `purge` carries the paths in the order `purge_extras` processes
them. -/
inductive Event where
  | createStaging
  | purge (paths : List String)
  | copyFiles
  | crlRegen
  | serviceRestart
  | removeStaging
deriving DecidableEq

/-- The restore report dict. -/
structure Report where
  archive : String
  dry_run : Bool
  diff : DiffReport
  purge_mode : String
  crl_action : Option String
  service_restart : Option String
  errors : List String
deriving DecidableEq

/-- Environment of one `apply_restore` call: the live filesystem, the
outcome of `load_manifest_from_archive` (extraction error or missing
manifest.json produce `.error`), and the outcomes of the two external
commands (CRL regeneration and service restart). -/
structure RestoreEnv where
  fs : FS
  load : Except Unit Manifest
  crlResult : Bool × String
  restartError : Option String

/-- `apply_restore(archive_path, dry_run=True)`: result value (or propagated
exception) plus the trace of side effects.  The `finally` block removes the
staging directory on every path out of the function, so every trace ends
with `removeStaging`. -/
def apply_restore (env : RestoreEnv) (archive_path : String) (dry_run : Bool := true) :
    Except Unit Report × List Event :=
  match env.load with
  | Except.error e => (Except.error e, [Event.createStaging, Event.removeStaging])
  | Except.ok manifest =>
      let diff := compute_diff env.fs manifest
      let report : Report :=
        { archive := archive_path
          dry_run := dry_run
          diff := diff
          purge_mode := if STRICT_PURGE then "strict" else "none"
          crl_action := none
          service_restart := none
          errors := [] }
      if dry_run then (Except.ok report, [Event.createStaging, Event.removeStaging])
      else
        let purgeEvents :=
          if STRICT_PURGE ∧ diff.extra ≠ [] then [Event.purge (purge_order diff.extra)] else []
        let report :=
          { report with
            crl_action := some env.crlResult.2
            service_restart :=
              some (match env.restartError with
                    | none => "OK"
                    | some e => "Failed: " ++ e)
            errors :=
              match env.restartError with
              | none => []
              | some e => [e] }
        (Except.ok report,
         [Event.createStaging] ++ purgeEvents ++
           [Event.copyFiles, Event.crlRegen, Event.serviceRestart, Event.removeStaging])

/-! ## Order-theoretic facts about the two sort comparators -/

theorem chLe_total : ∀ a b : List Char, chLe a b = true ∨ chLe b a = true
  | [], _ => Or.inl rfl
  | _ :: _, [] => Or.inr rfl
  | a :: as, b :: bs => by
      by_cases h : a = b
      · subst h
        simpa [chLe] using chLe_total as bs
      · rcases lt_or_gt_of_ne h with hlt | hgt
        · exact Or.inl (by simp [chLe, h, hlt])
        · exact Or.inr (by simp [chLe, Ne.symm h, hgt])

theorem chLe_trans : ∀ a b c : List Char, chLe a b = true → chLe b c = true → chLe a c = true
  | [], _, _, _, _ => rfl
  | _ :: _, [], _, h1, _ => by simp [chLe] at h1
  | _ :: _, _ :: _, [], _, h2 => by simp [chLe] at h2
  | a :: as, b :: bs, c :: cs, h1, h2 => by
      by_cases hab : a = b <;> by_cases hbc : b = c
      · subst hab; subst hbc
        simp only [chLe, if_pos rfl] at h1 h2 ⊢
        exact chLe_trans as bs cs h1 h2
      · subst hab
        simp only [chLe, if_neg hbc] at h2
        simpa [chLe, hbc] using h2
      · subst hbc
        simp only [chLe, if_neg hab] at h1
        simpa [chLe, hab] using h1
      · simp only [chLe, if_neg hab, decide_eq_true_eq] at h1
        simp only [chLe, if_neg hbc, decide_eq_true_eq] at h2
        have hac := lt_trans h1 h2
        simp [chLe, ne_of_lt hac, hac]

instance : IsTotal String strLeP := ⟨fun a b => chLe_total a.data b.data⟩

instance : IsTrans String strLeP := ⟨fun a b c => chLe_trans a.data b.data c.data⟩

instance : IsTotal String lenGeP := ⟨fun a b => (Nat.le_total b.length a.length).symm.symm⟩

instance : IsTrans String lenGeP := ⟨fun _ _ _ h1 h2 => le_trans h2 h1⟩

theorem mem_sortStr {p : String} {l : List String} : p ∈ sortStr l ↔ p ∈ l :=
  (List.perm_insertionSort strLeP l).mem_iff

theorem sortStr_sorted (l : List String) : List.Sorted strLeP (sortStr l) :=
  List.sorted_insertionSort strLeP l

theorem mem_purge_order {p : String} {l : List String} : p ∈ purge_order l ↔ p ∈ l :=
  (List.perm_insertionSort lenGeP l).mem_iff

theorem purge_order_sorted (l : List String) : List.Sorted lenGeP (purge_order l) :=
  List.sorted_insertionSort lenGeP l

/-! ## General lemmas about `buildFilesMeta` and `build_manifest` -/

/-- When every traversed path either vanished before `os.lstat` or has
readable metadata and contents, the metadata loop succeeds, produces one
record per surviving path in traversal order, and records the digest the
`hash` oracle returns. -/
theorem buildFilesMeta_spec (fs : FS) :
    ∀ l : List String,
      (∀ q ∈ l, fs.lstat q = none ∨ ((fs.lstat q).isSome ∧ ∃ s, fs.hash q = Except.ok s)) →
      ∃ recs, buildFilesMeta fs l = Except.ok recs ∧
        recs.map (fun f => f.path) = l.filter (fun q => (fs.lstat q).isSome) ∧
        ∀ f ∈ recs, fs.hash f.path = Except.ok f.sha256
  | [], _ => ⟨[], rfl, rfl, by simp⟩
  | q :: rest, h => by
      obtain ⟨recs, h1, h2, h3⟩ :=
        buildFilesMeta_spec fs rest (fun x hx => h x (List.mem_cons_of_mem q hx))
      rcases h q (List.mem_cons_self q rest) with hnone | ⟨hsome, s, hs⟩
      · refine ⟨recs, ?_, ?_, h3⟩
        · simp [buildFilesMeta, hnone, h1]
        · simp [List.filter_cons, hnone, h2]
      · obtain ⟨st, hst⟩ := Option.isSome_iff_exists.mp hsome
        refine ⟨{ path := q, sha256 := s, size := st.size, mode := st.mode,
                  uid := st.uid, gid := st.gid } :: recs, ?_, ?_, ?_⟩
        · simp [buildFilesMeta, hst, hs, h1, Except.map]
        · simp [List.filter_cons, hst, h2]
        · intro f hf
          rcases List.mem_cons.mp hf with rfl | hf2
          · exact hs
          · exact h3 f hf2

/-- The paths of the records the metadata loop produces form a sublist of
the traversal list (each path comes from one traversal entry). -/
theorem buildFilesMeta_sublist (fs : FS) :
    ∀ {l : List String} {recs : List FileRecord},
      buildFilesMeta fs l = Except.ok recs → List.Sublist (recs.map (fun f => f.path)) l
  | [], recs, h => by
      simp only [buildFilesMeta] at h
      cases h
      simp
  | q :: rest, recs, h => by
      simp only [buildFilesMeta] at h
      cases hst : fs.lstat q with
      | none =>
          rw [hst] at h
          exact List.Sublist.cons q (buildFilesMeta_sublist fs h)
      | some st =>
          rw [hst] at h
          cases hh : fs.hash q with
          | error e => rw [hh] at h; cases h
          | ok s =>
              rw [hh] at h
              cases hrest : buildFilesMeta fs rest with
              | error e => rw [hrest] at h; cases h
              | ok recs2 =>
                  rw [hrest] at h
                  cases h
                  exact List.Sublist.cons₂ q (buildFilesMeta_sublist fs hrest)

/-- Inversion of a successful `build_manifest`: the file records come from
the metadata loop over the normalized-root traversal, and the manifest
stores the roots as given. -/
theorem build_manifest_ok_elim {fs : FS} {roots : List String} {m : Manifest}
    (h : build_manifest fs roots = Except.ok m) :
    buildFilesMeta fs (buildWalk fs roots) = Except.ok m.files ∧ m.roots = roots := by
  unfold build_manifest at h
  cases hb : buildFilesMeta fs (buildWalk fs roots) with
  | error e => rw [hb] at h; cases h
  | ok recs =>
      rw [hb] at h
      cases h
      exact ⟨rfl, rfl⟩

/-- When the metadata loop records a digest for every record and a path is
recorded, the dict lookup `recorded[path]["sha256"]` returns a digest that
the `hash` oracle reproduces. -/
theorem recordedSha_eq_hash {fs : FS} {files : List FileRecord} {p : String}
    (hall : ∀ f ∈ files, fs.hash f.path = Except.ok f.sha256)
    (hp : p ∈ files.map (fun f => f.path)) :
    ∃ s, recordedSha files p = some s ∧ fs.hash p = Except.ok s := by
  obtain ⟨f, hf, hfp⟩ := List.mem_map.mp hp
  have hsome : (files.reverse.find? (fun g => g.path == p)).isSome :=
    List.find?_isSome.mpr ⟨f, List.mem_reverse.mpr hf, by simp [hfp]⟩
  obtain ⟨g, hg⟩ := Option.isSome_iff_exists.mp hsome
  have hgmem : g ∈ files := List.mem_reverse.mp (List.mem_of_find?_eq_some hg)
  have hgp : g.path = p := by simpa using List.find?_some hg
  refine ⟨g.sha256, ?_, ?_⟩
  · simp [recordedSha, hg]
  · rw [← hgp]; exact hall g hgmem

/-- The path of every recorded file lies in the manifest membership sense
in the recorded set used by `compute_diff`. -/
theorem recordedSha_isSome_of_mem {files : List FileRecord} {p : String}
    (hp : p ∈ files.map (fun f => f.path)) :
    ∃ s, recordedSha files p = some s := by
  obtain ⟨f, hf, hfp⟩ := List.mem_map.mp hp
  have hsome : (files.reverse.find? (fun g => g.path == p)).isSome :=
    List.find?_isSome.mpr ⟨f, List.mem_reverse.mpr hf, by simp [hfp]⟩
  obtain ⟨g, hg⟩ := Option.isSome_iff_exists.mp hsome
  exact ⟨g.sha256, by simp [recordedSha, hg]⟩

/-! ## Concrete fixtures used by counterexamples and witnesses -/

/-- Default `os.lstat` result for the fixtures. -/
def baseStat : StatInfo := { size := 1, mode := 420, uid := 0, gid := 0 }

/-- A filesystem whose directory `/a` holds one file `f`; every path is
statable and hashes to `"h1"`; no PKI material. -/
def fsA : FS :=
  { lookup := fun r =>
      if r = "/a" then some (FSList.ofList [FSNode.file "f"]) else none
    lstat := fun _ => some baseStat
    hash := fun _ => Except.ok "h1"
    pkiRootExists := false
    indexLines := none
    serialFile := none
    created_at := "2026-10-12T00:00:00Z" }

/-- Like `fsA`, but the directory is also reachable through the
non-normalized alias `/a/.`, exactly as a kernel resolves that path. -/
def fsAlias : FS :=
  { fsA with
    lookup := fun r =>
      if r = "/a" ∨ r = "/a/." then some (FSList.ofList [FSNode.file "f"]) else none }

/-- Live state for the C1 witness: the manifest records `/a/f` with digest
`"h1"`, but on disk `/a` now holds `f` (hashing to `"h2"`) and a new file
`new.txt`. -/
def fsChanged : FS :=
  { fsA with
    lookup := fun r =>
      if r = "/a" then some (FSList.ofList [FSNode.file "f", FSNode.file "new.txt"]) else none
    hash := fun _ => Except.ok "h2" }

/-- Manifest recording exactly `/a/f` with digest `"h1"` under root `/a`. -/
def mA : Manifest :=
  { version := 1
    created_at := "2026-10-12T00:00:00Z"
    roots := ["/a"]
    files := [{ path := "/a/f", sha256 := "h1", size := 1, mode := 420, uid := 0, gid := 0 }]
    openvpn_pki := { pki_root := none, index_sha256 := none, serial := none, clients := [] } }

/-- A filesystem where `/a/f` exists but hashing it fails (e.g. permission
denied), for the C7 witness. -/
def fsHashErr : FS :=
  { fsA with hash := fun _ => Except.error () }

/-- A filesystem for the C6 counterexample: `/a/f` is listed by traversal
and statable, but reading its contents raises (it vanished between
`os.lstat` and `sha256_file`). -/
def fsVanishContent : FS :=
  { fsA with hash := fun _ => Except.error () }

/-- A filesystem for the C6 amended theorem and witness: `/a` lists `f` and
`g`, but `f` vanishes before `os.lstat` (lstat raises `FileNotFoundError`),
while `g` is intact. -/
def fsVanishStat : FS :=
  { fsA with
    lookup := fun r =>
      if r = "/a" then some (FSList.ofList [FSNode.file "f", FSNode.file "g"]) else none
    lstat := fun p => if p = "/a/f" then none else some baseStat }

/-- A filesystem whose CA index file holds exactly the example line of the
spec, for C5. -/
def fsIndex : FS :=
  { fsA with
    pkiRootExists := true
    indexLines := some ["V  251231000000Z    01  unused  /CN=alice"]
    serialFile := some "02" }

/-- Restore environment for the C4 witness: loading succeeds with manifest
`mA` over live state `fsChanged`. -/
def envA : RestoreEnv :=
  { fs := fsChanged
    load := Except.ok mA
    crlResult := (true, "CRL regenerated.")
    restartError := none }

/-! ## Claim theorems -/

/-- C3: `purge_extras` attempts deletions in longest-path-first order: for
any two paths in the list where `a` is a proper ancestor directory of `b`
(that is, `b = a ++ "/" ++ rest`), every position of the descendant `b` in
the processing order comes strictly before every position of the ancestor
`a`.  The processing order is `purge_order`, the embedding of
`sorted(extra_list, key=lambda p: len(p), reverse=True)` at line 242. -/
theorem purge_extras_deepest_first (l : List String) (a b : String)
    (hanc : ∃ rest, b = a ++ "/" ++ rest)
    (i j : Nat)
    (hbi : (purge_order l)[i]? = some b)
    (haj : (purge_order l)[j]? = some a) : i < j := by
  obtain ⟨rest, hb⟩ := hanc
  have hsl : ("/" : String).length = 1 := rfl
  have hlen : a.length < b.length := by
    rw [hb, String.length_append, String.length_append]
    omega
  obtain ⟨hi, hib⟩ := List.getElem?_eq_some.mp hbi
  obtain ⟨hj, hja⟩ := List.getElem?_eq_some.mp haj
  rcases Nat.lt_trichotomy i j with h | h | h
  · exact h
  · exfalso
    subst h
    rw [hib] at hja
    rw [hja] at hlen
    omega
  · exfalso
    have hs := List.pairwise_iff_getElem.mp (purge_order_sorted l) j i hj hi h
    rw [hja, hib] at hs
    unfold lenGeP at hs
    omega

/-- Witness for C3 at the nested chain of the spec example: with extras
`A/B`, `A/B/C/file`, `A/B/C`, the descendant `A/B/C` is processed at index
1, before its ancestor `A/B` at index 2. -/
theorem purge_extras_deepest_first_witness :
    (purge_order ["A/B", "A/B/C/file", "A/B/C"])[1]? = some "A/B/C" ∧
    (purge_order ["A/B", "A/B/C/file", "A/B/C"])[2]? = some "A/B" ∧ 1 < 2 :=
  ⟨by decide, by decide,
    purge_extras_deepest_first ["A/B", "A/B/C/file", "A/B/C"] "A/B" "A/B/C"
      ⟨"C", by decide⟩ 1 2 (by decide) (by decide)⟩

/-- C7: if a path is recorded in the manifest and present in the current
traversal, and recomputing its digest raises (the `hash` oracle returns an
error, e.g. a permission error), `compute_diff` puts the path into
`changed`; `compute_diff` is total by construction, so a diff report is
still returned. -/
theorem compute_diff_hash_error_changed (fs : FS) (m : Manifest) (p : String)
    (hrec : p ∈ m.files.map (fun f => f.path))
    (hcur : p ∈ currentPaths fs m)
    (herr : fs.hash p = Except.error ()) :
    p ∈ (compute_diff fs m).changed := by
  unfold compute_diff
  simp only [mem_sortStr, List.mem_filter, recordedSet, currentSet, List.mem_dedup,
    decide_eq_true_eq]
  refine ⟨⟨hrec, hcur⟩, ?_⟩
  rw [herr]

/-- Witness for C7: `/a/f` is recorded, still on disk, and hashing it
fails; it lands in `changed`. -/
theorem compute_diff_hash_error_changed_witness :
    "/a/f" ∈ (compute_diff fsHashErr mA).changed :=
  compute_diff_hash_error_changed fsHashErr mA "/a/f" (by decide) (by decide) rfl

/-- C8: whenever the staging directory has been created, every exit path of
`apply_restore` — propagated load failure, early dry-run return, and normal
return — ends with the staging directory being removed: the event trace
starts with `createStaging` and its last event is `removeStaging`. -/
theorem apply_restore_staging_cleanup (env : RestoreEnv) (p : String) (d : Bool) :
    (apply_restore env p d).2.head? = some Event.createStaging ∧
    (apply_restore env p d).2.getLast? = some Event.removeStaging := by
  unfold apply_restore
  cases env.load with
  | error e => exact ⟨rfl, rfl⟩
  | ok m =>
      cases d with
      | true => exact ⟨rfl, rfl⟩
      | false =>
          by_cases hx : STRICT_PURGE ∧ (compute_diff env.fs m).extra ≠ []
          · simp only [if_pos hx, Bool.false_eq_true, if_false]
            exact ⟨rfl, rfl⟩
          · simp only [if_neg hx, Bool.false_eq_true, if_false]
            exact ⟨rfl, rfl⟩

/-- C10: `dry_run` defaults to `True`, so calling `apply_restore` with only
an archive path is the dry-run call: it performs no purge, copy, CRL
regeneration or service restart (the trace holds only the staging
create/remove pair) and only returns a report. -/
theorem apply_restore_default_is_dry_run (env : RestoreEnv) (p : String) :
    apply_restore env p = apply_restore env p true ∧
    (apply_restore env p).2 = [Event.createStaging, Event.removeStaging] := by
  refine ⟨rfl, ?_⟩
  unfold apply_restore
  cases env.load with
  | error e => rfl
  | ok m => rfl

/-- C4: with `dry_run = true`, `apply_restore` performs no mutating step —
the trace holds only the staging create/remove pair, so purge, copy, CRL
regeneration and service restart are all skipped — and, when the manifest
loads, it returns the report built right after computing the diff. -/
theorem apply_restore_dry_run_pure (env : RestoreEnv) (p : String) :
    (apply_restore env p true).2 = [Event.createStaging, Event.removeStaging] ∧
    ∀ m, env.load = Except.ok m →
      (apply_restore env p true).1 = Except.ok
        { archive := p, dry_run := true, diff := compute_diff env.fs m,
          purge_mode := "strict", crl_action := none, service_restart := none,
          errors := [] } := by
  constructor
  · unfold apply_restore
    cases env.load with
    | error e => rfl
    | ok m => rfl
  · intro m hm
    unfold apply_restore
    rw [hm]
    rfl

/-- Witness for C4: a concrete environment whose archive loads manifest
`mA` over a drifted live tree; the dry run returns exactly the diff report
and touches nothing. -/
theorem apply_restore_dry_run_pure_witness :
    (apply_restore envA "/root/backups/b.tar.gz" true).1 = Except.ok
      { archive := "/root/backups/b.tar.gz", dry_run := true,
        diff := compute_diff envA.fs mA, purge_mode := "strict",
        crl_action := none, service_restart := none, errors := [] } :=
  (apply_restore_dry_run_pure envA "/root/backups/b.tar.gz").2 mA rfl

/-- Counterexample to C5: on the index line
`V  251231000000Z    01  unused  /CN=alice` the fourth whitespace-separated
field is `unused`, and that — not `01`, the third field — is what the code
records as the serial (`serial = parts[3]`).  Manifest building therefore
yields the client record with `serial = "unused"`, not the record the claim
states. -/
theorem ca_index_example_cex :
    (build_manifest fsIndex []).map (fun m => m.openvpn_pki.clients) =
      Except.ok [{ cn := "alice", status := "V", serial := "unused",
                   expiry_raw := "251231000000Z" }] ∧
    parse_index_line "V  251231000000Z    01  unused  /CN=alice" ≠
      some { cn := "alice", status := "V", serial := "01",
             expiry_raw := "251231000000Z" } := by
  decide

/-- C5 amended: parsing the example CA index line during manifest building
yields exactly `{cn: "alice", status: "V", serial: "unused",
expiry_raw: "251231000000Z"}`; in general, for any line with at least five
whitespace-separated fields, the parsed record takes its status from the
first field, its expiry from the second, its serial from the fourth (the
third field is not consulted), and its CN from the last field. -/
theorem ca_index_parsing_amended :
    (build_manifest fsIndex []).map (fun m => m.openvpn_pki.clients) =
      Except.ok [{ cn := "alice", status := "V", serial := "unused",
                   expiry_raw := "251231000000Z" }] ∧
    ∀ line : String, 5 ≤ (pyWsSplit (pyTrim line)).length →
      parse_index_line line = some
        { cn :=
            match extractCN ((pyWsSplit (pyTrim line)).getLastD "") with
            | some c => if c = "" then "?" else c
            | none => "?"
          status := (pyWsSplit (pyTrim line)).getD 0 ""
          serial := (pyWsSplit (pyTrim line)).getD 3 ""
          expiry_raw := (pyWsSplit (pyTrim line)).getD 1 "" } := by
  constructor
  · decide
  · intro line h5
    have hne : pyTrim line ≠ "" := by
      intro h0
      rw [h0] at h5
      exact absurd h5 (by decide)
    unfold parse_index_line
    rw [if_neg hne, if_neg (by omega : ¬ (pyWsSplit (pyTrim line)).length < 5)]

/-- Witness for C5 amended, exercising the general clause on a fresh line:
field four (`04`) becomes the serial while field three (`ignored3`) is
dropped. -/
theorem ca_index_parsing_amended_witness :
    parse_index_line "V 111 ignored3 04 /CN=w" =
      some { cn := "w", status := "V", serial := "04", expiry_raw := "111" } :=
  (ca_index_parsing_amended.2 "V 111 ignored3 04 /CN=w" (by decide)).trans (by decide)

/-- Counterexample to C6: `/a/f` is listed by the traversal, `os.lstat`
succeeds, but the file vanishes before `sha256_file` reads its contents
(the `hash` oracle raises).  `sha256_file` is called outside any `try`, so
the whole `build_manifest` call fails instead of skipping the file. -/
theorem build_vanish_before_read_cex :
    iter_files fsVanishContent "/a" = ["/a/f"] ∧
    build_manifest fsVanishContent ["/a"] = Except.error () := by
  decide

/-- C6 amended: only a disappearance before the metadata read is tolerated:
if `os.lstat` on `p` raises `FileNotFoundError` and every other traversed
file is statable and readable, `build_manifest` succeeds and returns a
manifest covering exactly the remaining files, in traversal order.  (A
disappearance between `os.lstat` and the content read aborts the build, see
the counterexample.) -/
theorem build_manifest_skips_vanished_at_lstat (fs : FS) (roots : List String) (p : String)
    (hp : fs.lstat p = none)
    (hrest : ∀ q ∈ buildWalk fs roots, q ≠ p →
      (fs.lstat q).isSome ∧ ∃ s, fs.hash q = Except.ok s) :
    ∃ m, build_manifest fs roots = Except.ok m ∧
      m.files.map (fun f => f.path) = (buildWalk fs roots).filter (fun q => decide (q ≠ p)) := by
  obtain ⟨recs, h1, h2, _⟩ := buildFilesMeta_spec fs (buildWalk fs roots) (by
    intro q hq
    by_cases hqp : q = p
    · subst hqp
      exact Or.inl hp
    · exact Or.inr (hrest q hq hqp))
  cases hbm : build_manifest fs roots with
  | error e =>
      exfalso
      unfold build_manifest at hbm
      rw [h1] at hbm
      cases hbm
  | ok m =>
      refine ⟨m, rfl, ?_⟩
      obtain ⟨hfeq, _⟩ := build_manifest_ok_elim hbm
      rw [h1] at hfeq
      have hfiles : recs = m.files := by
        injection hfeq
      rw [← hfiles, h2]
      refine List.filter_congr ?_
      intro q hq
      by_cases hqp : q = p
      · subst hqp
        simp [hp]
      · simp [hqp, (hrest q hq hqp).1]

/-- Witness for C6 amended: `/a` lists `f` and `g`; `f` vanished before
`os.lstat`, so the build succeeds covering exactly `g`. -/
theorem build_manifest_skips_vanished_at_lstat_witness :
    ∃ m, build_manifest fsVanishStat ["/a"] = Except.ok m ∧
      m.files.map (fun f => f.path) =
        (buildWalk fsVanishStat ["/a"]).filter (fun q => decide (q ≠ "/a/f")) :=
  build_manifest_skips_vanished_at_lstat fsVanishStat ["/a"] "/a/f" rfl (by
    intro q hq hne
    have hw : buildWalk fsVanishStat ["/a"] = ["/a/f", "/a/g"] := by decide
    rw [hw] at hq
    rcases List.mem_cons.mp hq with rfl | hq2
    · exact absurd rfl hne
    · rcases List.mem_cons.mp hq2 with rfl | hq3
      · exact ⟨by decide, "h1", rfl⟩
      · cases hq3)

/-- Counterexample to C9: with the repeated roots `["/a", "/a"]`, the file
`/a/f` is traversed once per root and `build_manifest` appends one record
each time, so the manifest carries two records with the same path. -/
theorem build_manifest_dup_path_cex :
    (build_manifest fsA ["/a", "/a"]).map (fun m => m.files.map (fun f => f.path)) =
      Except.ok ["/a/f", "/a/f"] ∧
    ¬ (["/a/f", "/a/f"] : List String).Nodup := by
  decide

/-- C9 amended: the paths of the file records are pairwise distinct exactly
when the combined traversal never lists a path twice — which holds for
disjoint roots (such as the configured `BACKUP_ROOTS`) but fails for
repeated or nested roots, see the counterexample. -/
theorem build_manifest_unique_paths (fs : FS) (roots : List String) (m : Manifest)
    (hbuild : build_manifest fs roots = Except.ok m)
    (hwalk : (buildWalk fs roots).Nodup) :
    (m.files.map (fun f => f.path)).Nodup := by
  obtain ⟨h1, _⟩ := build_manifest_ok_elim hbuild
  exact hwalk.sublist (buildFilesMeta_sublist fs h1)

/-- The manifest `build_manifest fsA ["/a"]` evaluates to, used by the C9
witness. -/
def mBuiltA : Manifest :=
  { version := 1
    created_at := "2026-10-12T00:00:00Z"
    roots := ["/a"]
    files := [{ path := "/a/f", sha256 := "h1", size := 1, mode := 420, uid := 0, gid := 0 }]
    openvpn_pki := { pki_root := none, index_sha256 := none, serial := none, clients := [] } }

/-- Witness for C9 amended: a single root, duplicate-free traversal, and
the resulting manifest has pairwise-distinct record paths. -/
theorem build_manifest_unique_paths_witness :
    (mBuiltA.files.map (fun f => f.path)).Nodup :=
  build_manifest_unique_paths fsA ["/a"] mBuiltA (by decide) (by decide)

/-- Spec-side statement of C1, following the spec wording: the current set
is the re-traversal (with exclusion) of the roots recorded in the manifest;
`extra` holds exactly the current paths not recorded, `missing` exactly the
recorded paths not current, `changed` exactly the intersection paths whose
recomputed digest differs from the recorded one; and all three lists are
sorted lexicographically by path. -/
def DiffMatchesSpec (fs : FS) (m : Manifest) : Prop :=
  (∀ p, p ∈ (compute_diff fs m).extra ↔
    p ∈ currentPaths fs m ∧ p ∉ m.files.map (fun f => f.path)) ∧
  (∀ p, p ∈ (compute_diff fs m).missing ↔
    p ∈ m.files.map (fun f => f.path) ∧ p ∉ currentPaths fs m) ∧
  (∀ p, p ∈ (compute_diff fs m).changed ↔
    p ∈ m.files.map (fun f => f.path) ∧ p ∈ currentPaths fs m ∧
      ∃ h s, fs.hash p = Except.ok h ∧ recordedSha m.files p = some s ∧ h ≠ s) ∧
  List.Sorted strLeP (compute_diff fs m).extra ∧
  List.Sorted strLeP (compute_diff fs m).missing ∧
  List.Sorted strLeP (compute_diff fs m).changed

/-- C1: for every manifest (with the digest recomputation succeeding on the
intersection paths, so that "the recomputed digest" exists), `compute_diff`
returns exactly the three sets the spec describes, each sorted
lexicographically by path. -/
theorem compute_diff_meets_spec (fs : FS) (m : Manifest)
    (hhash : ∀ p, p ∈ m.files.map (fun f => f.path) → p ∈ currentPaths fs m →
      ∃ h, fs.hash p = Except.ok h) :
    DiffMatchesSpec fs m := by
  refine ⟨?_, ?_, ?_, ?_, ?_, ?_⟩
  · intro p
    unfold compute_diff
    simp only [mem_sortStr, List.mem_filter, currentSet, recordedSet, List.mem_dedup,
      decide_eq_true_eq]
  · intro p
    unfold compute_diff
    simp only [mem_sortStr, List.mem_filter, currentSet, recordedSet, List.mem_dedup,
      decide_eq_true_eq]
  · intro p
    unfold compute_diff
    simp only [mem_sortStr, List.mem_filter, currentSet, recordedSet, List.mem_dedup,
      decide_eq_true_eq]
    constructor
    · rintro ⟨⟨hrec, hcur⟩, hpred⟩
      obtain ⟨h, hh⟩ := hhash p hrec hcur
      rw [hh] at hpred
      simp only [decide_eq_true_eq] at hpred
      obtain ⟨s, hs⟩ := recordedSha_isSome_of_mem hrec
      refine ⟨hrec, hcur, h, s, hh, hs, ?_⟩
      intro heq
      exact hpred (by rw [hs, heq])
    · rintro ⟨hrec, hcur, h, s, hh, hs, hne⟩
      refine ⟨⟨hrec, hcur⟩, ?_⟩
      rw [hh]
      simp only [decide_eq_true_eq]
      rw [hs]
      intro hc
      injection hc with hc2
      exact hne hc2.symm
  · unfold compute_diff
    exact sortStr_sorted _
  · unfold compute_diff
    exact sortStr_sorted _
  · unfold compute_diff
    exact sortStr_sorted _

/-- Witness for C1: manifest `mA` diffed against the drifted live state
`fsChanged` (every digest recomputation succeeds, returning `"h2"`). -/
theorem compute_diff_meets_spec_witness : DiffMatchesSpec fsChanged mA :=
  compute_diff_meets_spec fsChanged mA (fun _ _ _ => ⟨"h2", rfl⟩)

/-- If the recorded paths and the current traversal agree as sets and every
recorded path still hashes to its recorded digest, the diff is empty. -/
theorem compute_diff_eq_empty_of (fs : FS) (m : Manifest)
    (hset : ∀ p, p ∈ m.files.map (fun f => f.path) ↔ p ∈ currentPaths fs m)
    (hsha : ∀ p ∈ m.files.map (fun f => f.path),
      ∃ s, recordedSha m.files p = some s ∧ fs.hash p = Except.ok s) :
    compute_diff fs m = { extra := [], missing := [], changed := [] } := by
  have hex : (currentSet fs m).filter (fun p => decide (p ∉ recordedSet m)) = [] := by
    refine List.filter_eq_nil_iff.mpr ?_
    intro p hp
    have hp2 : p ∈ currentPaths fs m := List.mem_dedup.mp hp
    have hrec : p ∈ recordedSet m := List.mem_dedup.mpr ((hset p).mpr hp2)
    simp [hrec]
  have hmis : (recordedSet m).filter (fun p => decide (p ∉ currentSet fs m)) = [] := by
    refine List.filter_eq_nil_iff.mpr ?_
    intro p hp
    have hp2 : p ∈ m.files.map (fun f => f.path) := List.mem_dedup.mp hp
    have hcur : p ∈ currentSet fs m := List.mem_dedup.mpr ((hset p).mp hp2)
    simp [hcur]
  have hch : ((recordedSet m).filter (fun p => decide (p ∈ currentSet fs m))).filter
      (fun p =>
        match fs.hash p with
        | Except.error _ => true
        | Except.ok h => decide (recordedSha m.files p ≠ some h)) = [] := by
    refine List.filter_eq_nil_iff.mpr ?_
    intro p hp
    have hp2 : p ∈ m.files.map (fun f => f.path) :=
      List.mem_dedup.mp (List.mem_filter.mp hp).1
    obtain ⟨s, hs, hh⟩ := hsha p hp2
    simp [hh, hs]
  unfold compute_diff
  rw [hex, hmis, hch]
  rfl

/-- C2 amended: for roots that are already normalized
(`os.path.normpath(r) == r`), diffing a freshly built manifest against the
unchanged filesystem yields empty `extra`, `missing` and `changed`.  (For a
non-normalized root the recorded paths and the re-traversed paths differ as
strings, see the counterexample.) -/
theorem idempotent_diff (fs : FS) (roots : List String)
    (hnorm : ∀ r ∈ roots, normpath r = r)
    (hstat : ∀ p, (fs.lstat p).isSome)
    (hhash : ∀ p, ∃ s, fs.hash p = Except.ok s) :
    ∃ m, build_manifest fs roots = Except.ok m ∧
      compute_diff fs m = { extra := [], missing := [], changed := [] } := by
  obtain ⟨recs, h1, h2, h3⟩ := buildFilesMeta_spec fs (buildWalk fs roots)
    (fun q _ => Or.inr ⟨hstat q, hhash q⟩)
  have h2' : recs.map (fun f => f.path) = buildWalk fs roots := by
    rw [h2]
    exact List.filter_eq_self.mpr (fun q _ => hstat q)
  cases hbm : build_manifest fs roots with
  | error e =>
      exfalso
      unfold build_manifest at hbm
      rw [h1] at hbm
      cases hbm
  | ok m =>
      refine ⟨m, rfl, ?_⟩
      obtain ⟨hfeq, hroots⟩ := build_manifest_ok_elim hbm
      rw [h1] at hfeq
      have hfiles : recs = m.files := by injection hfeq
      have hcur : currentPaths fs m = buildWalk fs roots := by
        unfold currentPaths buildWalk
        rw [hroots]
        congr 1
        symm
        exact List.map_congr_left (fun r hr => by rw [hnorm r hr])
      refine compute_diff_eq_empty_of fs m ?_ ?_
      · intro p
        rw [← hfiles, h2', hcur]
      · intro p hp
        refine recordedSha_eq_hash ?_ hp
        intro f hf
        refine h3 f ?_
        rw [hfiles]
        exact hf

/-- Counterexample to C2: `build_manifest` normalizes each root before
walking but stores the roots as given, and `compute_diff` walks the stored
roots verbatim.  With the unchanged filesystem `fsAlias` and the
non-normalized root `/a/.`, the build records `/a/f` while the diff
traversal yields the string `/a/./f`, so `extra` and `missing` are both
non-empty. -/
theorem idempotent_diff_cex :
    (build_manifest fsAlias ["/a/."]).map (fun m => compute_diff fsAlias m) =
      Except.ok { extra := ["/a/./f"], missing := ["/a/f"], changed := [] } ∧
    (build_manifest fsAlias ["/a/."]).map (fun m => compute_diff fsAlias m) ≠
      Except.ok { extra := [], missing := [], changed := [] } := by
  decide

/-- Witness for C2 amended: the normalized root `/a` over the unchanged
filesystem `fsA` builds and diffs to the empty report. -/
theorem idempotent_diff_witness :
    ∃ m, build_manifest fsA ["/a"] = Except.ok m ∧
      compute_diff fsA m = { extra := [], missing := [], changed := [] } :=
  idempotent_diff fsA ["/a"] (by decide) (fun _ => rfl) (fun _ => ⟨"h1", rfl⟩)

end BackupRestore
